import Mathlib

/-!
Shallow embedding of the core of the polyio market-data client library
(subscription normalisation, streaming session, handshake, wire decoding
and the REST response envelope), with theorems settling the specified
properties against the code.
-/

namespace Polyio

/-! ## Subscription model (src/events/subscription.rs) -/

/-- `Stock` from src/events/subscription.rs: a concrete symbol or the
wildcard selecting all stocks. -/
inductive Stock where
  | symbol (sym : String)
  | all
deriving DecidableEq, Repr

/-- `Display for Stock`: a symbol renders as itself, the wildcard as "*". -/
def Stock.render : Stock → String
  | .symbol sym => sym
  | .all => "*"

/-- `Subscription` from src/events/subscription.rs. -/
inductive Subscription where
  | secondAggregates (stock : Stock)
  | minuteAggregates (stock : Stock)
  | trades (stock : Stock)
  | quotes (stock : Stock)
deriving DecidableEq, Repr

/-- `Display for Subscription`: the wire token, a kind tag joined to the
rendered stock with a dot. -/
def Subscription.render : Subscription → String
  | .secondAggregates stock => "A." ++ stock.render
  | .minuteAggregates stock => "AM." ++ stock.render
  | .trades stock => "T." ++ stock.render
  | .quotes stock => "Q." ++ stock.render

/-- The four event kinds, used to state per-kind properties of
normalisation. -/
inductive Kind where
  | second
  | minute
  | tradeKind
  | quoteKind
deriving DecidableEq, Repr

/-- The kind of a subscription. -/
def Subscription.kind : Subscription → Kind
  | .secondAggregates _ => .second
  | .minuteAggregates _ => .minute
  | .trades _ => .tradeKind
  | .quotes _ => .quoteKind

/-- The stock selector of a subscription (`Subscription::stock`). -/
def Subscription.stock : Subscription → Stock
  | .secondAggregates stock => stock
  | .minuteAggregates stock => stock
  | .trades stock => stock
  | .quotes stock => stock

/-- The subscription of the given kind carrying the given stock. -/
def Kind.sub : Kind → Stock → Subscription
  | .second, stock => .secondAggregates stock
  | .minute, stock => .minuteAggregates stock
  | .tradeKind, stock => .trades stock
  | .quoteKind, stock => .quotes stock

/-- The wildcard subscription of a kind, `K(*)`. -/
def Kind.wildcard (k : Kind) : Subscription := k.sub Stock.all

/-! ## Subscription normalisation (src/client.rs, `normalize`) -/

/-- The retain predicate of the first conditional in `normalize`: keep a
subscription unless it is a second-aggregates subscription for a concrete
stock. -/
def keepSecond : Subscription → Bool
  | .secondAggregates stock => stock == Stock.all
  | _ => true

/-- The retain predicate of the second conditional in `normalize`. -/
def keepMinute : Subscription → Bool
  | .minuteAggregates stock => stock == Stock.all
  | _ => true

/-- The retain predicate of the third conditional in `normalize`. -/
def keepTrades : Subscription → Bool
  | .trades stock => stock == Stock.all
  | _ => true

/-- The retain predicate of the fourth conditional in `normalize`. -/
def keepQuotes : Subscription → Bool
  | .quotes stock => stock == Stock.all
  | _ => true

/-- `normalize` from src/client.rs, on the already-collected set: four
sequential conditional retains, one per event kind, each dropping the
concrete-symbol subscriptions of its kind when the wildcard of that kind
is present. -/
def normalize (subscriptions : Finset Subscription) : Finset Subscription :=
  let subs := subscriptions
  let subs :=
    if Subscription.secondAggregates Stock.all ∈ subs then
      subs.filter (fun sub => keepSecond sub = true)
    else subs
  let subs :=
    if Subscription.minuteAggregates Stock.all ∈ subs then
      subs.filter (fun sub => keepMinute sub = true)
    else subs
  let subs :=
    if Subscription.trades Stock.all ∈ subs then
      subs.filter (fun sub => keepTrades sub = true)
    else subs
  let subs :=
    if Subscription.quotes Stock.all ∈ subs then
      subs.filter (fun sub => keepQuotes sub = true)
    else subs
  subs

/-- `normalize` applied to an input collection: the Rust function first
collects its iterator into a `HashSet`. -/
def normalizeList (subscriptions : List Subscription) : Finset Subscription :=
  normalize subscriptions.toFinset

/-- The uniform retain predicate: `keepSecond` and friends, parameterised
by the kind. -/
def keepKind (k : Kind) (sub : Subscription) : Bool :=
  if sub.kind == k then sub.stock == Stock.all else true

lemma keepSecond_eq (sub : Subscription) : keepSecond sub = keepKind .second sub := by
  cases sub <;> rfl

lemma keepMinute_eq (sub : Subscription) : keepMinute sub = keepKind .minute sub := by
  cases sub <;> rfl

lemma keepTrades_eq (sub : Subscription) : keepTrades sub = keepKind .tradeKind sub := by
  cases sub <;> rfl

lemma keepQuotes_eq (sub : Subscription) : keepQuotes sub = keepKind .quoteKind sub := by
  cases sub <;> rfl

/-- One conditional retain step of `normalize`, for a single kind. -/
def retainStep (k : Kind) (subs : Finset Subscription) : Finset Subscription :=
  if k.wildcard ∈ subs then subs.filter (fun sub => keepKind k sub = true) else subs

lemma kind_sub (k : Kind) (st : Stock) : (k.sub st).kind = k := by
  cases k <;> rfl

lemma stock_sub (k : Kind) (st : Stock) : (k.sub st).stock = st := by
  cases k <;> rfl

lemma sub_kind_stock (x : Subscription) : x.kind.sub x.stock = x := by
  cases x <;> rfl

lemma mem_retainStep (k : Kind) (subs : Finset Subscription) (x : Subscription) :
    x ∈ retainStep k subs ↔ x ∈ subs ∧ (x.kind = k → k.wildcard ∈ subs → x.stock = Stock.all) := by
  unfold retainStep
  split
  · next hw =>
    simp only [Finset.mem_filter, keepKind]
    constructor
    · rintro ⟨hx, hkeep⟩
      refine ⟨hx, fun hk _ => ?_⟩
      rw [hk] at hkeep
      simpa using hkeep
    · rintro ⟨hx, himp⟩
      refine ⟨hx, ?_⟩
      by_cases hk : x.kind = k
      · have := himp hk hw
        simp [hk, this]
      · simp [hk]
  · next hw =>
    constructor
    · intro hx
      exact ⟨hx, fun _ hin => absurd hin hw⟩
    · exact fun h => h.1

lemma wildcard_mem_retainStep (k k' : Kind) (subs : Finset Subscription) :
    k'.wildcard ∈ retainStep k subs ↔ k'.wildcard ∈ subs := by
  rw [mem_retainStep]
  constructor
  · exact fun h => h.1
  · intro h
    refine ⟨h, fun _ _ => ?_⟩
    simp [Kind.wildcard, stock_sub]

lemma normalize_eq_steps (subs : Finset Subscription) :
    normalize subs =
      retainStep .quoteKind (retainStep .tradeKind (retainStep .minute (retainStep .second subs))) := by
  unfold normalize retainStep
  have hA : ∀ s : Finset Subscription,
      s.filter (fun sub => keepSecond sub = true) = s.filter (fun sub => keepKind .second sub = true) := by
    intro s; apply Finset.filter_congr; intro x _; simp [keepSecond_eq]
  have hAM : ∀ s : Finset Subscription,
      s.filter (fun sub => keepMinute sub = true) = s.filter (fun sub => keepKind .minute sub = true) := by
    intro s; apply Finset.filter_congr; intro x _; simp [keepMinute_eq]
  have hT : ∀ s : Finset Subscription,
      s.filter (fun sub => keepTrades sub = true) = s.filter (fun sub => keepKind .tradeKind sub = true) := by
    intro s; apply Finset.filter_congr; intro x _; simp [keepTrades_eq]
  have hQ : ∀ s : Finset Subscription,
      s.filter (fun sub => keepQuotes sub = true) = s.filter (fun sub => keepKind .quoteKind sub = true) := by
    intro s; apply Finset.filter_congr; intro x _; simp [keepQuotes_eq]
  simp only [Kind.wildcard, Kind.sub, hA, hAM, hT, hQ]

lemma wildcard_stock (k : Kind) : k.wildcard.stock = Stock.all := by
  cases k <;> rfl

lemma wildcard_kind (k : Kind) : k.wildcard.kind = k := by
  cases k <;> rfl

/-- Membership characterisation of `normalize`: an element survives iff it
was present and, whenever the wildcard of its kind is present in the
input, it is itself that wildcard. -/
lemma mem_normalize (subs : Finset Subscription) (x : Subscription) :
    x ∈ normalize subs ↔ x ∈ subs ∧ (x.kind.wildcard ∈ subs → x.stock = Stock.all) := by
  rw [normalize_eq_steps]
  simp only [mem_retainStep, wildcard_stock]
  simp only [implies_true, and_true]
  constructor
  · rintro ⟨⟨⟨⟨hx, h2⟩, h3⟩, h4⟩, h5⟩
    refine ⟨hx, fun hw => ?_⟩
    cases hk : x.kind
    · exact h2 hk (hk ▸ hw)
    · exact h3 hk (hk ▸ hw)
    · exact h4 hk (hk ▸ hw)
    · exact h5 hk (hk ▸ hw)
  · rintro ⟨hx, himp⟩
    refine ⟨⟨⟨⟨hx, ?_⟩, ?_⟩, ?_⟩, ?_⟩ <;>
      (intro hk hw; exact himp (hk.symm ▸ hw))

lemma wildcard_mem_normalize (subs : Finset Subscription) (k : Kind) :
    k.wildcard ∈ normalize subs ↔ k.wildcard ∈ subs := by
  rw [mem_normalize]
  constructor
  · exact fun h => h.1
  · intro h
    exact ⟨h, fun _ => by simp [Kind.wildcard, stock_sub]⟩

/-- C6: for every input collection of subscriptions and each event kind K,
if the input contains the wildcard K(*) then the K-variants of the
normalised output are exactly the singleton K(*); otherwise they are
exactly the deduplicated K-variants of the input. Since the right-hand
side for kind K only depends on the input's K-variants, the other kinds
are unaffected by K's wildcard. -/
theorem normalize_kind_characterisation (subs : List Subscription) (k : Kind) :
    (normalizeList subs).filter (fun x => x.kind = k) =
      (if k.wildcard ∈ subs.toFinset then ({k.wildcard} : Finset Subscription)
       else subs.toFinset.filter (fun x => x.kind = k)) := by
  ext x
  simp only [normalizeList, Finset.mem_filter, mem_normalize]
  split
  · next hw =>
    simp only [Finset.mem_singleton]
    constructor
    · rintro ⟨⟨hx, himp⟩, hk⟩
      have hst : x.stock = Stock.all := himp (by rw [hk]; exact hw)
      calc x = x.kind.sub x.stock := (sub_kind_stock x).symm
        _ = k.wildcard := by rw [hk, hst]; rfl
    · rintro rfl
      exact ⟨⟨hw, fun _ => wildcard_stock k⟩, wildcard_kind k⟩
  · next hw =>
    simp only [Finset.mem_filter]
    constructor
    · rintro ⟨⟨hx, _⟩, hk⟩
      exact ⟨hx, hk⟩
    · rintro ⟨hx, hk⟩
      exact ⟨⟨hx, fun hmem => absurd (hk ▸ hmem) hw⟩, hk⟩

/-- C7: normalisation is idempotent: re-normalising the normalised set of
any input collection changes nothing. -/
theorem normalize_idempotent (subs : List Subscription) :
    normalize (normalizeList subs) = normalizeList subs := by
  unfold normalizeList
  ext x
  rw [mem_normalize, mem_normalize, wildcard_mem_normalize]
  tauto

/-- C10: normalisation never invents a subscription: every element of the
output set is an element of the input collection, and the output holds no
duplicates. -/
theorem normalize_subset_nodup (subs : List Subscription) :
    normalizeList subs ⊆ subs.toFinset ∧ (normalizeList subs).val.Nodup := by
  constructor
  · intro x hx
    exact ((mem_normalize _ _).mp hx).1
  · exact (normalizeList subs).nodup

/-! ## Streaming data model (src/events/stream.rs)

Prices are exact decimals (`num_decimal::Num`), modelled as rationals;
timestamps are epoch milliseconds (`DateTime<Utc>` decoded through
`ts_milliseconds`), modelled as integers. -/

/-- `Trade` from src/events/stream.rs. -/
structure Trade where
  symbol : String
  exchange : Nat
  price : ℚ
  quantity : Nat
  timestamp : Int
deriving DecidableEq, Repr

/-- `Quote` from src/events/stream.rs. -/
structure Quote where
  symbol : String
  bid_exchange : Nat
  bid_price : ℚ
  bid_quantity : Nat
  ask_exchange : Nat
  ask_price : ℚ
  ask_quantity : Nat
  timestamp : Int
deriving DecidableEq, Repr

/-- `Aggregate` from src/events/stream.rs. -/
structure Aggregate where
  symbol : String
  volume : Nat
  volume_weighted_average_price : ℚ
  open_price : ℚ
  close_price : ℚ
  high_price : ℚ
  low_price : ℚ
  start_timestamp : Int
  end_timestamp : Int
deriving DecidableEq, Repr

/-- `Code` from src/events/stream.rs: the closed set of status codes. -/
inductive Code where
  | connected
  | disconnected
  | authSuccess
  | authFailure
  | success
deriving DecidableEq, Repr

/-- `Status` from src/events/stream.rs. -/
structure Status where
  code : Code
  message : String
deriving DecidableEq, Repr

/-- `Message` from src/events/stream.rs: one item of a server frame,
discriminated by the "ev" tag. -/
inductive Message where
  | status (s : Status)
  | secondAggregate (a : Aggregate)
  | minuteAggregate (a : Aggregate)
  | trade (t : Trade)
  | quote (q : Quote)
deriving DecidableEq, Repr

/-- `Event` from src/events/stream.rs: the data events yielded to the
caller. -/
inductive Event where
  | secondAggregate (a : Aggregate)
  | minuteAggregate (a : Aggregate)
  | trade (t : Trade)
  | quote (q : Quote)
deriving DecidableEq, Repr

/-- The WebSocket errors the session logic produces (`AlreadyClosed` on a
disconnected status) or forwards from the transport. -/
inductive WebSocketErr where
  | alreadyClosed
  | protocolViolation (msg : String)
  | transportFailure (msg : String)
deriving DecidableEq, Repr

/-! ## Session stream (src/events/stream.rs, `process_message`,
`handle_msg` and the `unfold` in `stream`) -/

/-- `process_message` from src/events/stream.rs: a disconnected status
becomes the `AlreadyClosed` error, any other status is dropped, data
messages become events. -/
def processMessage (message : Message) : Option (Except WebSocketErr Event) :=
  match message with
  | .status status =>
    if status.code = Code.disconnected then some (.error .alreadyClosed)
    else none
  | .secondAggregate aggregate => some (.ok (.secondAggregate aggregate))
  | .minuteAggregate aggregate => some (.ok (.minuteAggregate aggregate))
  | .trade trade => some (.ok (.trade trade))
  | .quote quote => some (.ok (.quote quote))

/-- One caller-observed item of the event stream: an outer transport
error, a frame decode error, or a decoded event. -/
abbrev Item := Except WebSocketErr (Except String Event)

/-- The input of the session stream after the handshake: each element is
what one call to the underlying socket stream produced — a transport
error, a frame whose JSON failed to decode, or a decoded batch. -/
inductive FrameIn where
  | transport (e : WebSocketErr)
  | decodeFail (e : String)
  | batch (messages : List Message)
deriving DecidableEq, Repr

/-- A delivered event as an item. -/
def okItem (e : Event) : Item := .ok (.ok e)

/-- The inner loop of `handle_msg`: the buffer of undelivered messages of
the current frame is consumed by popping messages off its BACK (the Rust
code notes "by popping from the back we reorder messages"), so the loop
is modelled as processing the REVERSED buffer front to back. A message
on which `process_message` yields nothing is skipped; a data message is
delivered; a disconnect yields its error as the last item and reports
the stopped flag as set. Returns the items produced from the buffer and
the final value of the stopped flag. -/
def processBatch : List Message → List Item × Bool
  | [] => ([], false)
  | m :: rest =>
    match processMessage m with
    | none => processBatch rest
    | some (.ok event) =>
      let r := processBatch rest
      (okItem event :: r.1, r.2)
    | some (.error e) => ([.error e], true)

/-- The session stream built by `unfold` in `stream`, starting with an
empty buffer: each socket result is handled in turn. A transport error
is surfaced as an item and the stream continues (`handle_msg` does not
set the stopped flag there); a frame whose JSON failed to decode is
surfaced as one recoverable item; a decoded batch is drained through the
buffer, and if that set the stopped flag the stream ends, otherwise the
following frames are processed; end of the socket stream ends the
session stream. -/
def streamRun : List FrameIn → List Item
  | [] => []
  | .transport e :: fs => .error e :: streamRun fs
  | .decodeFail e :: fs => .ok (.error e) :: streamRun fs
  | .batch msgs :: fs =>
    let p := processBatch msgs.reverse
    if p.2 then p.1 else p.1 ++ streamRun fs

/-- The caller-observed item sequence of the session stream from a
general `handle_msg` state (stopped flag, buffer of not-yet-delivered
messages of the current frame, remaining socket results). Once the
stopped flag is set every poll yields nothing. -/
def runStream (stop : Bool) (messages : List Message) (frames : List FrameIn) : List Item :=
  if stop then []
  else
    let p := processBatch messages.reverse
    if p.2 then p.1 else p.1 ++ streamRun frames

lemma runStream_start (frames : List FrameIn) :
    runStream false [] frames = streamRun frames := rfl

instance instDecEqExcept {ε α : Type} [DecidableEq ε] [DecidableEq α] :
    DecidableEq (Except ε α) := fun x y =>
  match x, y with
  | .ok a, .ok b =>
    if h : a = b then .isTrue (by rw [h]) else .isFalse (fun hc => h (Except.ok.inj hc))
  | .ok _, .error _ => .isFalse (fun hc => Except.noConfusion hc)
  | .error _, .ok _ => .isFalse (fun hc => Except.noConfusion hc)
  | .error e, .error f =>
    if h : e = f then .isTrue (by rw [h]) else .isFalse (fun hc => h (Except.error.inj hc))

/-- The data event carried by a message, if any. -/
def eventOf : Message → Option Event
  | .status _ => none
  | .secondAggregate a => some (.secondAggregate a)
  | .minuteAggregate a => some (.minuteAggregate a)
  | .trade t => some (.trade t)
  | .quote q => some (.quote q)

/-- Whether a message is a status with code disconnected. -/
def Message.isDisconnect : Message → Bool
  | .status s => s.code == Code.disconnected
  | _ => false

lemma processMessage_not_disc {m : Message} (h : m.isDisconnect = false) :
    processMessage m = (eventOf m).map Except.ok := by
  cases m with
  | status s =>
    simp only [Message.isDisconnect, beq_eq_false_iff_ne, ne_eq] at h
    simp [processMessage, eventOf, h]
  | secondAggregate a => rfl
  | minuteAggregate a => rfl
  | trade t => rfl
  | quote q => rfl

lemma processMessage_disc {m : Message} (h : m.isDisconnect = true) :
    processMessage m = some (.error .alreadyClosed) := by
  cases m with
  | status s =>
    simp only [Message.isDisconnect, beq_iff_eq] at h
    simp [processMessage, h]
  | secondAggregate a => simp [Message.isDisconnect] at h
  | minuteAggregate a => simp [Message.isDisconnect] at h
  | trade t => simp [Message.isDisconnect] at h
  | quote q => simp [Message.isDisconnect] at h

lemma processBatch_no_disc {l : List Message} (h : ∀ m ∈ l, m.isDisconnect = false) :
    processBatch l = ((l.filterMap eventOf).map okItem, false) := by
  induction l with
  | nil => rfl
  | cons m rest ih =>
    have hm : m.isDisconnect = false := h m (List.mem_cons_self _ _)
    have hr := ih (fun x hx => h x (List.mem_cons_of_mem _ hx))
    rw [processBatch, processMessage_not_disc hm]
    cases he : eventOf m with
    | none => simp [hr, List.filterMap_cons, he]
    | some ev => simp [hr, List.filterMap_cons, he]

lemma processBatch_disc {b : List Message} (hb : ∀ m ∈ b, m.isDisconnect = false)
    {d : Message} (hd : d.isDisconnect = true) (a : List Message) :
    processBatch (b ++ d :: a) =
      ((b.filterMap eventOf).map okItem ++ [.error .alreadyClosed], true) := by
  induction b with
  | nil =>
    simp only [List.nil_append]
    rw [processBatch, processMessage_disc hd]
    simp
  | cons m rest ih =>
    have hm : m.isDisconnect = false := hb m (List.mem_cons_self _ _)
    have hr := ih (fun x hx => hb x (List.mem_cons_of_mem _ hx))
    simp only [List.cons_append]
    rw [processBatch, processMessage_not_disc hm]
    cases he : eventOf m with
    | none => simp [hr, List.filterMap_cons, he]
    | some ev => simp [hr, List.filterMap_cons, he]

lemma streamRun_no_disc {frames : List (List Message)}
    (h : ∀ f ∈ frames, ∀ m ∈ f, m.isDisconnect = false) :
    streamRun (frames.map .batch) =
      (frames.flatMap (fun f => f.reverse.filterMap eventOf)).map okItem := by
  induction frames with
  | nil => rfl
  | cons f fs ih =>
    have hf : ∀ m ∈ f.reverse, m.isDisconnect = false := by
      intro m hm
      exact h f (List.mem_cons_self _ _) m (List.mem_reverse.mp hm)
    have hfs := ih (fun g hg m hm => h g (List.mem_cons_of_mem _ hg) m hm)
    simp only [List.map_cons, streamRun, processBatch_no_disc hf]
    simp [hfs, List.flatMap_cons]

/-- Sample trade used in concrete stream computations. -/
def tradeA : Trade := ⟨"MSFT", 4, 156, 3, 1577818283019⟩

/-- A second sample trade, distinct from `tradeA`. -/
def tradeB : Trade := ⟨"MSFT", 4, 157, 5, 1577818283020⟩

/-- Sample quote used in concrete stream computations. -/
def quoteA : Quote := ⟨"UFO", 8, 26, 1, 12, 27, 3, 1577818659363⟩

/-- Sample disconnect status. -/
def discStatus : Status := ⟨Code.disconnected, "Max connections reached"⟩

/-- C2: the claim states that after a successful handshake the stream
emits exactly the data events the server transmitted in server order,
ACROSS frames and WITHIN a single frame's array. The second half fails:
`handle_msg` pops messages off the back of the decoded array, so the two
trades of one frame are delivered in reverse array order. -/
theorem stream_intra_frame_order_counterexample :
    runStream false [] [.batch [.trade tradeA, .trade tradeB]] =
      [okItem (.trade tradeB), okItem (.trade tradeA)] ∧
    runStream false [] [.batch [.trade tradeA, .trade tradeB]] ≠
      [okItem (.trade tradeA), okItem (.trade tradeB)] := by
  exact ⟨rfl, by decide⟩

/-- C2 (amended): for every sequence of decoded server frames holding no
disconnected status, the stream emits exactly the data events the server
transmitted and nothing else, frames in server order, but the events of
each single frame in REVERSE of their array order; non-disconnect status
items are dropped silently. -/
theorem stream_emits_frames_reversed (frames : List (List Message))
    (h : ∀ f ∈ frames, ∀ m ∈ f, m.isDisconnect = false) :
    runStream false [] (frames.map .batch) =
      (frames.flatMap (fun f => f.reverse.filterMap eventOf)).map okItem := by
  rw [runStream_start]
  exact streamRun_no_disc h

/-- Witness for C2 (amended): two frames, the first with two trades and a
non-disconnect status, the second with a quote. -/
theorem stream_emits_frames_reversed_witness :
    runStream false []
        ([[.trade tradeA, .status ⟨Code.success, "late ack"⟩, .trade tradeB],
          [.quote quoteA]].map .batch) =
      [okItem (.trade tradeB), okItem (.trade tradeA), okItem (.quote quoteA)] :=
  (stream_emits_frames_reversed
      [[.trade tradeA, .status ⟨Code.success, "late ack"⟩, .trade tradeB], [.quote quoteA]]
      (by decide)).trans (by decide)

/-- C3: the claim states that on a disconnected status the caller
observes exactly one error item at that point, then end-of-stream, with
NO remaining item of that frame's batch delivered. The last part fails:
because `handle_msg` pops from the back, the items that FOLLOW the
disconnected status in the frame's array are delivered (in reverse)
BEFORE the error item. Here the quote that follows the disconnect in the
same frame is delivered. -/
theorem stream_disconnect_counterexample :
    runStream false [] [.batch [.status discStatus, .quote quoteA]] =
      [okItem (.quote quoteA), .error .alreadyClosed] ∧
    runStream false [] [.batch [.status discStatus, .quote quoteA]] ≠
      [.error .alreadyClosed] := by
  exact ⟨rfl, by decide⟩

/-- C3 (amended): for every stream of decoded frames whose first
processed disconnected status sits in frame `a ++ [disconnect] ++ b`
(frames before it disconnect-free, `b` disconnect-free), the caller
observes the events of the preceding frames (each frame reversed), then
the events of `b` in reverse array order, then EXACTLY ONE error item as
the final item; nothing of `a`, and no item of any later frame, is ever
delivered, and polling in the stopped state yields end-of-stream. -/
theorem stream_disconnect_truncates (pre : List (List Message))
    (hpre : ∀ f ∈ pre, ∀ m ∈ f, m.isDisconnect = false)
    (a b : List Message) (hb : ∀ m ∈ b, m.isDisconnect = false)
    (s : Status) (hs : s.code = Code.disconnected) (post : List FrameIn) :
    runStream false [] (pre.map .batch ++ .batch (a ++ .status s :: b) :: post) =
      (pre.flatMap (fun f => f.reverse.filterMap eventOf)).map okItem ++
        ((b.reverse.filterMap eventOf).map okItem ++ [.error .alreadyClosed]) ∧
    (∀ messages frames, runStream true messages frames = []) := by
  constructor
  · rw [runStream_start]
    have hd : (Message.status s).isDisconnect = true := by
      simp [Message.isDisconnect, hs]
    have hrev : (a ++ Message.status s :: b).reverse =
        b.reverse ++ Message.status s :: a.reverse := by
      simp
    induction pre with
    | nil =>
      have hbrev : ∀ m ∈ b.reverse, m.isDisconnect = false := fun m hm =>
        hb m (List.mem_reverse.mp hm)
      simp only [List.map_nil, List.nil_append, streamRun, hrev,
        processBatch_disc hbrev hd a.reverse]
      simp
    | cons f fs ih =>
      have hf : ∀ m ∈ f.reverse, m.isDisconnect = false := fun m hm =>
        hpre f (List.mem_cons_self _ _) m (List.mem_reverse.mp hm)
      have hfs := ih (fun g hg m hm => hpre g (List.mem_cons_of_mem _ hg) m hm)
      simp only [List.map_cons, List.cons_append, streamRun, processBatch_no_disc hf]
      simp only [List.flatMap_cons, List.map_append, List.append_assoc]
      simp [hfs]
  · intro messages frames
    rfl

/-- Witness for C3 (amended): one clean frame with a trade, then a frame
`[trade, disconnect, quote]`, then one more frame that is never seen. -/
theorem stream_disconnect_truncates_witness :
    runStream false []
        ([[Message.trade tradeA]].map .batch ++
          .batch ([.trade tradeB] ++ .status discStatus :: [.quote quoteA]) ::
            [.batch [.trade tradeB]]) =
      [okItem (.trade tradeA), okItem (.quote quoteA), .error .alreadyClosed] :=
  ((stream_disconnect_truncates [[Message.trade tradeA]] (by decide)
      [Message.trade tradeB] [Message.quote quoteA] (by decide)
      discStatus rfl [FrameIn.batch [Message.trade tradeB]]).1).trans (by decide)

/-! ## JSON wire model

Frames arrive as JSON text; serde_json parses it into a value tree whose
number lexemes we keep exactly (mantissa and decimal exponent), because
`num_decimal::Num` decodes prices exactly from the lexeme. -/

/-- A JSON number lexeme: its value is `mantissa * 10 ^ exp10`. The
literal `102.87` is `⟨10287, -2⟩`; `31315282` is `⟨31315282, 0⟩`. -/
structure JNum where
  mantissa : Int
  exp10 : Int
deriving DecidableEq, Repr

/-- A JSON value. -/
inductive Json where
  | null
  | bool (b : Bool)
  | num (n : JNum)
  | str (s : String)
  | arr (items : List Json)
  | obj (fields : List (String × Json))

/-- serde struct/map field lookup: the first field with the given name. -/
def jlookup : List (String × Json) → String → Option Json
  | [], _ => none
  | (k, v) :: rest, key => if k = key then some v else jlookup rest key

/-- Decoding a JSON string. -/
def decodeString : Json → Except String String
  | .str s => .ok s
  | _ => .error "invalid type: expected a string"

/-- The exact rational value of a number lexeme. -/
def JNum.toRat (n : JNum) : ℚ :=
  if 0 ≤ n.exp10 then (n.mantissa : ℚ) * (10 : ℚ) ^ n.exp10.toNat
  else (n.mantissa : ℚ) / (10 : ℚ) ^ (-n.exp10).toNat

/-- Decoding a `num_decimal::Num` price: the exact rational value of the
number lexeme (the repository's tests decode 293.67 to 29367/100). -/
def decodeNum : Json → Except String ℚ
  | .num n => .ok n.toRat
  | _ => .error "invalid type: expected a number"

/-- Decoding a `u64`: serde_json parses a lexeme with a fraction or
exponent part as a float, from which a u64 cannot be deserialized, and
an integer lexeme outside the u64 range likewise fails. -/
def decodeU64 : Json → Except String Nat
  | .num n =>
    if n.exp10 = 0 ∧ 0 ≤ n.mantissa ∧ n.mantissa < 2 ^ 64 then .ok n.mantissa.toNat
    else .error "invalid number for u64"
  | _ => .error "invalid type: expected a number"

/-- Decoding a `DateTime<Utc>` through chrono's `ts_milliseconds`: an
integer i64 count of milliseconds since the Unix epoch, UTC. -/
def decodeTimestamp : Json → Except String Int
  | .num n =>
    if n.exp10 = 0 ∧ -(2 ^ 63) ≤ n.mantissa ∧ n.mantissa < 2 ^ 63 then .ok n.mantissa
    else .error "invalid timestamp"
  | _ => .error "invalid type: expected a number"

/-- A required struct field: absence is a decode error, as for any serde
struct field without a default. Fields are checked in declaration order,
so the first missing declared field is reported. -/
def reqField {α : Type} (fields : List (String × Json)) (key : String)
    (dec : Json → Except String α) : Except String α :=
  match jlookup fields key with
  | some v => dec v
  | none => .error ("missing field " ++ key)

/-- serde decoding of `Trade` with its field renames; unknown fields are
ignored (no deny_unknown_fields). -/
def decodeTrade : Json → Except String Trade
  | .obj fields => do
    let symbol ← reqField fields "sym" decodeString
    let exchange ← reqField fields "x" decodeU64
    let price ← reqField fields "p" decodeNum
    let quantity ← reqField fields "s" decodeU64
    let timestamp ← reqField fields "t" decodeTimestamp
    pure ⟨symbol, exchange, price, quantity, timestamp⟩
  | _ => .error "invalid type: expected an object"

/-- serde decoding of `Quote` with its field renames. -/
def decodeQuote : Json → Except String Quote
  | .obj fields => do
    let symbol ← reqField fields "sym" decodeString
    let bid_exchange ← reqField fields "bx" decodeU64
    let bid_price ← reqField fields "bp" decodeNum
    let bid_quantity ← reqField fields "bs" decodeU64
    let ask_exchange ← reqField fields "ax" decodeU64
    let ask_price ← reqField fields "ap" decodeNum
    let ask_quantity ← reqField fields "as" decodeU64
    let timestamp ← reqField fields "t" decodeTimestamp
    pure ⟨symbol, bid_exchange, bid_price, bid_quantity, ask_exchange, ask_price,
      ask_quantity, timestamp⟩
  | _ => .error "invalid type: expected an object"

/-- serde decoding of `Aggregate` with its field renames: sym, v, vw, o,
c, h, l, and the start/end timestamps s and e. There is no "t" field. -/
def decodeAggregate : Json → Except String Aggregate
  | .obj fields => do
    let symbol ← reqField fields "sym" decodeString
    let volume ← reqField fields "v" decodeU64
    let vwap ← reqField fields "vw" decodeNum
    let openPrice ← reqField fields "o" decodeNum
    let closePrice ← reqField fields "c" decodeNum
    let highPrice ← reqField fields "h" decodeNum
    let lowPrice ← reqField fields "l" decodeNum
    let startTs ← reqField fields "s" decodeTimestamp
    let endTs ← reqField fields "e" decodeTimestamp
    pure ⟨symbol, volume, vwap, openPrice, closePrice, highPrice, lowPrice, startTs, endTs⟩
  | _ => .error "invalid type: expected an object"

/-- serde decoding of `Code`: five renamed unit variants and no
catch-all, so an unrecognised status code string is an error. -/
def decodeCode : Json → Except String Code
  | .str s =>
    if s = "connected" then .ok .connected
    else if s = "disconnected" then .ok .disconnected
    else if s = "auth_success" then .ok .authSuccess
    else if s = "auth_failed" then .ok .authFailure
    else if s = "success" then .ok .success
    else .error ("unknown variant " ++ s)
  | _ => .error "invalid type: expected a string"

/-- serde decoding of `Status`: fields status (a `Code`) and message. -/
def decodeStatus (fields : List (String × Json)) : Except String Status := do
  let code ← reqField fields "status" decodeCode
  let message ← reqField fields "message" decodeString
  pure ⟨code, message⟩

/-- serde internally-tagged decoding of `Message` (tag "ev"): look up
the tag and dispatch on it; the enum has no catch-all variant, so an
unrecognised tag value is a decode error. -/
def decodeMessage (j : Json) : Except String Message :=
  match j with
  | .obj fields =>
    match jlookup fields "ev" with
    | some (.str tag) =>
      if tag = "status" then (decodeStatus fields).map .status
      else if tag = "A" then (decodeAggregate (.obj fields)).map .secondAggregate
      else if tag = "AM" then (decodeAggregate (.obj fields)).map .minuteAggregate
      else if tag = "T" then (decodeTrade (.obj fields)).map .trade
      else if tag = "Q" then (decodeQuote (.obj fields)).map .quote
      else .error ("unknown variant " ++ tag)
    | some _ => .error "invalid type: tag must be a string"
    | none => .error "missing field ev"
  | _ => .error "invalid type: expected an object"

/-- Decoding the elements of a frame in order; the first failing element
fails the whole sequence, as for serde's Vec decoding. -/
def decodeItems : List Json → Except String (List Message)
  | [] => .ok []
  | j :: rest => do
    let m ← decodeMessage j
    let ms ← decodeItems rest
    pure (m :: ms)

/-- Decoding one server frame (`Messages`, a Vec of `Message`): a JSON
array whose every element decodes; any failing element fails the whole
frame. -/
def decodeMessages (j : Json) : Except String (List Message) :=
  match j with
  | .arr items => decodeItems items
  | _ => .error "invalid type: expected an array"

/-- Whether a decode result is a success. -/
def isOkE {ε α : Type} : Except ε α → Bool
  | .ok _ => true
  | .error _ => false

/-! ## REST response envelope (src/api/response.rs) -/

/-- `Response<T>` from src/api/response.rs: tagged by "status" with
content "results"; `Err` is the serde(other) catch-all and carries no
data. -/
inductive Response (T : Type) where
  | ok (data : T)
  | delayed (data : T)
  | err
deriving DecidableEq, Repr

/-- `ResponseError` from src/api/response.rs: its display text is
"response did not indicate success: " followed by the carried message. -/
structure ResponseError where
  message : String
deriving DecidableEq, Repr

/-- `Response::into_result`: Ok and Delayed both yield the payload; Err
yields a `ResponseError` carrying the FIXED message "an unexpected
status was reported" (the variant has no data to carry). -/
def Response.intoResult {T : Type} : Response T → Except ResponseError T
  | .ok data => .ok data
  | .delayed data => .ok data
  | .err => .error ⟨"an unexpected status was reported"⟩

/-- serde adjacently-tagged decoding of `Response` (tag "status",
content "results"): "OK" and "DELAYED" decode the results payload; any
other status string selects `Err` through serde(other), discarding both
the status string and any results. -/
def decodeResponse {T : Type} (dec : Json → Except String T) (j : Json) :
    Except String (Response T) :=
  match j with
  | .obj fields =>
    match jlookup fields "status" with
    | some (.str tag) =>
      if tag = "OK" then
        match jlookup fields "results" with
        | some v => (dec v).map .ok
        | none => .error "missing field results"
      else if tag = "DELAYED" then
        match jlookup fields "results" with
        | some v => (dec v).map .delayed
        | none => .error "missing field results"
      else .ok .err
    | some _ => .error "invalid type: tag must be a string"
    | none => .error "missing field status"
  | _ => .error "invalid type: expected an object"

/-- Days from the Unix epoch of a proleptic-Gregorian civil date
(Hinnant's algorithm), to state decoded timestamps as calendar
instants. -/
def daysFromCivil (y m d : Int) : Int :=
  let y := if m ≤ 2 then y - 1 else y
  let era := (if 0 ≤ y then y else y - 399) / 400
  let yoe := y - era * 400
  let mp := (m + 9) % 12
  let doy := (153 * mp + 2) / 5 + d - 1
  let doe := yoe * 365 + yoe / 4 - yoe / 100 + doy
  era * 146097 + doe - 719468

/-- Epoch milliseconds of a civil UTC date-time. -/
def epochMillis (y m d hh mi ss : Int) : Int :=
  (daysFromCivil y m d * 86400 + hh * 3600 + mi * 60 + ss) * 1000

/-- C1: the claim states that `into_result` yields the carried results
for status OK or DELAYED — which holds — and that for any other status
it yields an error whose message equals the status string reported by
the server. The latter fails: the `Err` variant is a serde(other)
catch-all carrying nothing, so the status string ("ERR" here) is
discarded at decode time and the error message is the fixed string
"an unexpected status was reported". -/
theorem intoResult_status_string_counterexample :
    decodeResponse decodeString (.obj [("status", .str "ERR"), ("results", .null)]) =
      .ok Response.err ∧
    (Response.err : Response String).intoResult =
      .error ⟨"an unexpected status was reported"⟩ ∧
    ("an unexpected status was reported" : String) ≠ "ERR" :=
  ⟨rfl, rfl, by decide⟩

/-- C1 (amended): `into_result` yields the carried results payload when
the status is OK or DELAYED; any other status decodes to the dataless
`Err` variant, for which `into_result` yields an error with the fixed
message "an unexpected status was reported" — the server's status string
is discarded. -/
theorem intoResult_envelope (T : Type) (d : T) (dec : Json → Except String T)
    (fields : List (String × Json)) (tag : String)
    (htag : jlookup fields "status" = some (.str tag))
    (hne : tag ≠ "OK" ∧ tag ≠ "DELAYED")
    (fieldsOK fieldsD : List (String × Json)) (rv rw : Json)
    (hOK : jlookup fieldsOK "status" = some (.str "OK"))
    (hres : jlookup fieldsOK "results" = some rv) (hdec : dec rv = .ok d)
    (hD : jlookup fieldsD "status" = some (.str "DELAYED"))
    (hresD : jlookup fieldsD "results" = some rw) (hdecD : dec rw = .ok d) :
    decodeResponse dec (.obj fieldsOK) = .ok (.ok d) ∧
    decodeResponse dec (.obj fieldsD) = .ok (.delayed d) ∧
    (Response.ok d).intoResult = .ok d ∧
    (Response.delayed d).intoResult = .ok d ∧
    decodeResponse dec (.obj fields) = .ok .err ∧
    (Response.err : Response T).intoResult =
      .error ⟨"an unexpected status was reported"⟩ := by
  refine ⟨?_, ?_, rfl, rfl, ?_, rfl⟩
  · simp [decodeResponse, hOK, hres, hdec, Except.map]
  · simp [decodeResponse, hD, hresD, hdecD, Except.map]
  · simp [decodeResponse, htag, hne.1, hne.2]

/-- Witness for C1 (amended) on the spec's S6 payloads. -/
theorem intoResult_envelope_witness :
    decodeResponse decodeString
        (.obj [("status", Json.str "OK"), ("results", Json.str "abc")]) =
      .ok (.ok "abc") ∧
    decodeResponse decodeString
        (.obj [("status", Json.str "DELAYED"), ("results", Json.str "abc")]) =
      .ok (.delayed "abc") ∧
    (Response.ok "abc").intoResult = .ok "abc" ∧
    (Response.delayed "abc").intoResult = .ok "abc" ∧
    decodeResponse decodeString (.obj [("status", Json.str "ERR"), ("results", Json.null)]) =
      .ok .err ∧
    (Response.err : Response String).intoResult =
      .error ⟨"an unexpected status was reported"⟩ :=
  intoResult_envelope String "abc" decodeString
    [("status", Json.str "ERR"), ("results", Json.null)] "ERR" rfl (by decide)
    [("status", Json.str "OK"), ("results", Json.str "abc")]
    [("status", Json.str "DELAYED"), ("results", Json.str "abc")]
    (Json.str "abc") (Json.str "abc") rfl rfl rfl rfl rfl rfl

/-- The spec's S5 aggregate JSON literal. -/
def s5Json : Json := .obj
  [("v", .num ⟨31315282, 0⟩), ("o", .num ⟨10287, -2⟩), ("c", .num ⟨10374, -2⟩),
   ("h", .num ⟨10382, -2⟩), ("l", .num ⟨10265, -2⟩), ("t", .num ⟨1549314000000, 0⟩)]

/-- The S5 literal augmented with the fields `Aggregate` actually
requires: sym, vw and the start/end timestamps s and e. -/
def s5AugmentedJson : Json := .obj
  [("sym", .str "SPY"), ("vw", .num ⟨10301, -2⟩),
   ("s", .num ⟨1549314000000, 0⟩), ("e", .num ⟨1549314000000, 0⟩),
   ("v", .num ⟨31315282, 0⟩), ("o", .num ⟨10287, -2⟩), ("c", .num ⟨10374, -2⟩),
   ("h", .num ⟨10382, -2⟩), ("l", .num ⟨10265, -2⟩), ("t", .num ⟨1549314000000, 0⟩)]

/-- C4: the claim states that the literal S5 aggregate JSON decodes
successfully. It does not: `Aggregate` requires the fields sym, vw, s
and e, none of which the literal has, and it has no "t" field at all, so
decoding fails with a missing-field error (sym is the first declared
field found missing). -/
theorem aggregate_s5_counterexample :
    decodeAggregate s5Json = .error "missing field sym" := by decide

/-- C4 (amended): the S5 literal fails to decode (missing required
fields sym, vw, s, e), and once augmented with those fields it decodes
with exactly the claimed exact-decimal prices and volume — open
10287/100, close 10374/100, high 10382/100, low 10265/100, volume
31315282 — while the timestamps come from the s/e fields, here the
claimed instant 2019-02-04T21:00:00Z (= 1549314000000 ms); the "t"
field is ignored. -/
theorem aggregate_s5_decode :
    decodeAggregate s5Json = .error "missing field sym" ∧
    decodeAggregate s5AugmentedJson =
      .ok ⟨"SPY", 31315282, (10301 : ℚ)/100, (10287 : ℚ)/100, (10374 : ℚ)/100,
        (10382 : ℚ)/100, (10265 : ℚ)/100, 1549314000000, 1549314000000⟩ ∧
    epochMillis 2019 2 4 21 0 0 = 1549314000000 := by
  refine ⟨by decide, ?_, by decide⟩
  simp [decodeAggregate, s5AugmentedJson, reqField, jlookup, decodeString, decodeU64,
    decodeNum, decodeTimestamp]
  norm_num [JNum.toRat, Int.toNat, Bind.bind, Except.bind]

lemma decodeItems_fail {j : Json} (hj : isOkE (decodeMessage j) = false) :
    ∀ (pre post : List Json), isOkE (decodeItems (pre ++ j :: post)) = false := by
  intro pre post
  induction pre with
  | nil =>
    simp only [List.nil_append, decodeItems]
    cases hd : decodeMessage j with
    | ok m => rw [hd] at hj; simp [isOkE] at hj
    | error e => simp [hd, isOkE, Bind.bind, Except.bind]
  | cons p ps ih =>
    simp only [List.cons_append, decodeItems]
    cases hd : decodeMessage p with
    | error e => simp [hd, isOkE, Bind.bind, Except.bind]
    | ok m =>
      simp only [hd, Bind.bind, Except.bind]
      cases hrec : decodeItems (ps ++ j :: post) with
      | error e => simp [isOkE, Bind.bind, Except.bind]
      | ok ms =>
        rw [hrec] at ih
        simp [isOkE] at ih

/-- An item with an unrecognised "ev" tag next to a perfectly good trade
item. -/
def unknownTagJson : Json := .obj [("ev", .str "X"), ("sym", .str "MSFT")]

/-- A valid trade item (taken from the repository's stream test frame). -/
def tradeJson : Json := .obj
  [("ev", .str "T"), ("sym", .str "MSFT"), ("x", .num ⟨4, 0⟩), ("p", .num ⟨1569799, -4⟩),
   ("s", .num ⟨3, 0⟩), ("t", .num ⟨1577818283019, 0⟩)]

/-- C5: the claim states that an array item with an unrecognised "ev"
tag is skipped silently and the frame's other items are delivered. It is
not: `Message` has no catch-all variant, so the unknown tag fails the
whole frame's decode — the valid trade item alongside it (which decodes
fine on its own) is not delivered. -/
theorem unknown_tag_not_skipped_counterexample :
    isOkE (decodeMessage tradeJson) = true ∧
    decodeMessages (.arr [unknownTagJson, tradeJson]) = .error "unknown variant X" := by
  constructor
  · rfl
  · rfl

/-- C5 (amended): an array item whose "ev" tag is none of A, AM, T, Q or
status is a decode error, and any such item makes the decode of the
ENTIRE surrounding frame fail (no item of that frame is delivered; the
session stream surfaces the failure as one recoverable decode-error
item); likewise a status item with an unrecognised status code is a
decode error, not a silent skip. -/
theorem unknown_tag_fails_whole_frame
    (fields : List (String × Json)) (tag : String)
    (htag : jlookup fields "ev" = some (.str tag))
    (hne : tag ≠ "status" ∧ tag ≠ "A" ∧ tag ≠ "AM" ∧ tag ≠ "T" ∧ tag ≠ "Q")
    (pre post : List Json) (code : String)
    (hcode : code ≠ "connected" ∧ code ≠ "disconnected" ∧ code ≠ "auth_success" ∧
      code ≠ "auth_failed" ∧ code ≠ "success") :
    decodeMessage (.obj fields) = .error ("unknown variant " ++ tag) ∧
    isOkE (decodeMessages (.arr (pre ++ .obj fields :: post))) = false ∧
    decodeCode (.str code) = .error ("unknown variant " ++ code) := by
  obtain ⟨h1, h2, h3, h4, h5⟩ := hne
  have hmsg : decodeMessage (.obj fields) = .error ("unknown variant " ++ tag) := by
    simp [decodeMessage, htag, h1, h2, h3, h4, h5]
  refine ⟨hmsg, ?_, ?_⟩
  · have hok : isOkE (decodeMessage (.obj fields)) = false := by rw [hmsg]; rfl
    simpa [decodeMessages] using decodeItems_fail hok pre post
  · obtain ⟨c1, c2, c3, c4, c5⟩ := hcode
    simp [decodeCode, c1, c2, c3, c4, c5]

/-- Witness for C5 (amended): the unknown tag "X" next to a trade item,
and the unknown status code "reconnected". -/
theorem unknown_tag_fails_whole_frame_witness :
    decodeMessage (.obj [("ev", Json.str "X"), ("sym", Json.str "MSFT")]) =
      .error "unknown variant X" ∧
    isOkE (decodeMessages (.arr ([] ++ Json.obj [("ev", Json.str "X"), ("sym", Json.str "MSFT")] :: [tradeJson]))) = false ∧
    decodeCode (.str "reconnected") = .error "unknown variant reconnected" := by
  have h := unknown_tag_fails_whole_frame [("ev", Json.str "X"), ("sym", Json.str "MSFT")]
    "X" rfl (by decide) [] [tradeJson] "reconnected" (by decide)
  exact ⟨h.1.trans (by decide), h.2.1, h.2.2.trans (by decide)⟩

/-! ## Handshake (src/events/handshake.rs) -/

/-- `Action` from src/events/handshake.rs, serialised as "auth" or
"subscribe". -/
inductive Action where
  | authenticate
  | subscribe
deriving DecidableEq, Repr

/-- `Request` from src/events/handshake.rs. -/
structure Request where
  action : Action
  params : String
deriving DecidableEq, Repr

/-- The serde rename of each `Action` variant. -/
def actionName : Action → String
  | .authenticate => "auth"
  | .subscribe => "subscribe"

/-- Lowercase hex digit. -/
def hexDigit (n : Nat) : Char :=
  if n < 10 then Char.ofNat (48 + n) else Char.ofNat (87 + n)

/-- serde_json escaping of one character inside a JSON string. -/
def escapeChar (c : Char) : String :=
  if c = '"' then "\\\""
  else if c = '\\' then "\\\\"
  else if c = '\x08' then "\\b"
  else if c = '\x09' then "\\t"
  else if c = '\x0a' then "\\n"
  else if c = '\x0c' then "\\f"
  else if c = '\x0d' then "\\r"
  else if c.toNat < 32 then
    "\\u00" ++ String.mk [hexDigit (c.toNat / 16), hexDigit (c.toNat % 16)]
  else String.singleton c

/-- serde_json escaping of a JSON string body. -/
def jsonEscape (s : String) : String := String.join (s.data.map escapeChar)

/-- serde_json serialisation of a `Request`, fields in declaration
order. -/
def renderRequest (r : Request) : String :=
  "\x7b\"action\":\"" ++ actionName r.action ++ "\",\"params\":\"" ++
    jsonEscape r.params ++ "\"\x7d"

/-- `make_subscribe_request` from src/events/handshake.rs: an empty
subscription iterator is a protocol error BEFORE anything is sent;
otherwise the wire tokens are folded together with "," and counted. -/
def makeSubscribeRequest (subscriptions : List Subscription) :
    Except WebSocketErr (Request × Nat) :=
  match subscriptions with
  | [] =>
    .error (.protocolViolation "failed to subscribe to event stream: no subscriptions supplied")
  | first :: rest =>
    let folded := rest.foldl
      (fun (acc : String × Nat) sub => (acc.1 ++ "," ++ sub.render, acc.2 + 1))
      (first.render, 1)
    .ok (⟨Action.subscribe, folded.1⟩, folded.2)

/-- `subscribe_stocks` from src/events/handshake.rs: builds the request
and only then sends it as one text frame, returning the token count; on
the empty-input error no frame is sent. The returned list is the
sequence of frames sent. -/
def subscribeStocks (subscriptions : List Subscription) :
    Except WebSocketErr (List Request × Nat) :=
  match makeSubscribeRequest subscriptions with
  | .error e => .error e
  | .ok (request, count) => .ok ([request], count)

/-- A list of strings joined with "," in order. -/
def joinTokens : List String → String
  | [] => ""
  | [t] => t
  | t :: rest => t ++ "," ++ joinTokens rest

/-- `check_responses` from src/events/handshake.rs, on one decoded
frame: walk the items in order; a status with an unexpected code fails
with "<operation> not successful: <message>"; a status with the expected
code decrements the counter, and when the counter reaches zero the
remaining items of the frame are discarded; non-status items are
dropped. (The Rust counter is a usize asserted positive on entry;
`await_responses` only calls this with a positive count.) -/
def checkResponses (messages : List Message) (expected : Code) (count : Nat)
    (operation : String) : Except String Nat :=
  match messages with
  | [] => .ok count
  | .status status :: rest =>
    if status.code ≠ expected then
      .error (operation ++ " not successful: " ++ status.message)
    else
      let count := count - 1
      if count = 0 then .ok 0 else checkResponses rest expected count operation
  | _ :: rest => checkResponses rest expected count operation

/-- One result of the socket stream as seen by `await_responses`: a
text/binary frame (already run through the JSON decode that
`check_responses` performs on the bytes), a ping or pong, or a close. -/
inductive WsFrame where
  | msg (decoded : Except String (List Message))
  | ping (payload : List Nat)
  | pong (payload : List Nat)
  | close

/-- `await_responses` from src/events/handshake.rs: while the counter is
positive, await the next frame; end of stream or a close frame is an
"unexpectedly closed" error; text/binary frames go through
`check_responses` (a JSON decode failure propagates); pings are answered
with pongs and pongs ignored, neither touching the counter. -/
def awaitResponses (frames : List WsFrame) (expected : Code) (count : Nat)
    (operation : String) : Except String Unit :=
  match count with
  | 0 => .ok ()
  | c + 1 =>
    match frames with
    | [] => .error "websocket connection closed unexpectedly"
    | f :: rest =>
      match f with
      | .msg (.error e) => .error e
      | .msg (.ok messages) =>
        match checkResponses messages expected (c + 1) operation with
        | .error e => .error e
        | .ok n => awaitResponses rest expected n operation
      | .ping _ => awaitResponses rest expected (c + 1) operation
      | .pong _ => awaitResponses rest expected (c + 1) operation
      | .close => .error "websocket connection closed unexpectedly"

/-- Number of status items in a frame. -/
def countStatus : List Message → Nat
  | [] => 0
  | .status _ :: rest => countStatus rest + 1
  | _ :: rest => countStatus rest

/-- Whether a message, if it is a status, carries the expected code. -/
def statusOk (expected : Code) : Message → Bool
  | .status st => st.code == expected
  | _ => true

lemma subscribe_fold (l : List Subscription) (acc : String) (n : Nat) :
    l.foldl (fun (a : String × Nat) sub => (a.1 ++ "," ++ sub.render, a.2 + 1)) (acc, n) =
      (joinTokens (acc :: l.map Subscription.render), n + l.length) := by
  induction l generalizing acc n with
  | nil => simp [joinTokens]
  | cons s rest ih =>
    simp only [List.foldl_cons, List.map_cons, List.length_cons]
    rw [ih]
    simp only [Prod.mk.injEq]
    constructor
    · cases hr : rest.map Subscription.render with
      | nil => simp [joinTokens]
      | cons t ts => simp [joinTokens, String.append_assoc]
    · omega

lemma statusOk_code {expected : Code} {st : Status}
    (h : statusOk expected (.status st) = true) : st.code = expected := by
  simpa [statusOk] using h

lemma checkResponses_countdown (expected : Code) :
    ∀ (pre : List Message), (∀ m ∈ pre, statusOk expected m = true) →
    ∀ (s : Status), s.code = expected → ∀ (post : List Message) (op : String),
    checkResponses (pre ++ .status s :: post) expected (countStatus pre + 1) op = .ok 0 := by
  intro pre
  induction pre with
  | nil =>
    intro _ s hs post op
    simp [checkResponses, countStatus, hs]
  | cons m rest ih =>
    intro hpre s hs post op
    have hrest : ∀ x ∈ rest, statusOk expected x = true := fun x hx =>
      hpre x (List.mem_cons_of_mem _ hx)
    have hr := ih hrest s hs post op
    cases m with
    | status st =>
      have hst : st.code = expected := statusOk_code (hpre _ (List.mem_cons_self _ _))
      simp only [List.cons_append, checkResponses, countStatus, hst]
      simpa using hr
    | secondAggregate a => simpa [checkResponses, countStatus] using hr
    | minuteAggregate a => simpa [checkResponses, countStatus] using hr
    | trade t => simpa [checkResponses, countStatus] using hr
    | quote q => simpa [checkResponses, countStatus] using hr

lemma checkResponses_all (expected : Code) :
    ∀ (l : List Message) (count : Nat) (op : String), 0 < count →
    (∀ m ∈ l, statusOk expected m = true) →
    checkResponses l expected count op = .ok (count - countStatus l) := by
  intro l
  induction l with
  | nil =>
    intro count op _ _
    simp [checkResponses, countStatus]
  | cons m rest ih =>
    intro count op hc hall
    have hrest : ∀ x ∈ rest, statusOk expected x = true := fun x hx =>
      hall x (List.mem_cons_of_mem _ hx)
    cases m with
    | status st =>
      have hst : st.code = expected := statusOk_code (hall _ (List.mem_cons_self _ _))
      obtain ⟨c, rfl⟩ : ∃ c, count = c + 1 := ⟨count - 1, by omega⟩
      simp only [checkResponses, countStatus, hst]
      by_cases hc0 : c = 0
      · subst hc0
        simp
      · have hihc := ih c op (by omega) hrest
        have harith : c + 1 - (countStatus rest + 1) = c - countStatus rest := by omega
        simp only [Nat.add_sub_cancel]
        rw [if_neg hc0, hihc, harith]
        simp
    | secondAggregate a => simpa [checkResponses, countStatus] using ih count op hc hrest
    | minuteAggregate a => simpa [checkResponses, countStatus] using ih count op hc hrest
    | trade t => simpa [checkResponses, countStatus] using ih count op hc hrest
    | quote q => simpa [checkResponses, countStatus] using ih count op hc hrest

lemma awaitResponses_all (expected : Code) :
    ∀ (fs : List (List Message)) (N : Nat) (op : String),
    (∀ l ∈ fs, ∀ m ∈ l, statusOk expected m = true) →
    N ≤ (fs.map countStatus).sum →
    awaitResponses (fs.map (fun l => .msg (.ok l))) expected N op = .ok () := by
  intro fs
  induction fs with
  | nil =>
    intro N op _ hN
    have hN0 : N = 0 := by simpa using hN
    subst hN0
    rfl
  | cons l rest ih =>
    intro N op hall hN
    cases N with
    | zero => rfl
    | succ c =>
      have hl : ∀ m ∈ l, statusOk expected m = true := hall l (List.mem_cons_self _ _)
      have hrest : ∀ g ∈ rest, ∀ m ∈ g, statusOk expected m = true := fun g hg =>
        hall g (List.mem_cons_of_mem _ hg)
      simp only [List.map_cons, awaitResponses,
        checkResponses_all expected l (c + 1) op (Nat.succ_pos c) hl]
      apply ih _ op hrest
      simp only [List.map_cons, List.sum_cons] at hN ⊢
      omega

/-- C8: for every non-empty normalised subscription list, the subscribe
phase builds a single request whose action is "subscribe" and whose
params string is the wire tokens joined by ",", with N the number of
tokens; its serialised frame is exactly the claimed JSON object. The
await loop then consumes frames until N success statuses have been seen:
within one frame the counter is decremented per success item and the
rest of the frame is discarded once it reaches zero (the `post` part is
arbitrary), across frames enough successes terminate the wait, and with
the counter at zero no further frame is consumed. -/
theorem subscribe_phase (first : Subscription) (rest : List Subscription)
    (pre : List Message) (hpre : ∀ m ∈ pre, statusOk Code.success m = true)
    (count : Nat) (hcount : count = countStatus pre + 1)
    (s : Status) (hs : s.code = Code.success) (post : List Message) (op : String)
    (fs : List (List Message)) (hfs : ∀ l ∈ fs, ∀ m ∈ l, statusOk Code.success m = true)
    (N : Nat) (hN : N ≤ (fs.map countStatus).sum)
    (frames : List WsFrame) (operation : String) :
    makeSubscribeRequest (first :: rest) =
      .ok (⟨Action.subscribe, joinTokens ((first :: rest).map Subscription.render)⟩,
        (first :: rest).length) ∧
    renderRequest ⟨Action.subscribe, joinTokens ((first :: rest).map Subscription.render)⟩ =
      "\x7b\"action\":\"subscribe\",\"params\":\"" ++
        jsonEscape (joinTokens ((first :: rest).map Subscription.render)) ++ "\"\x7d" ∧
    checkResponses (pre ++ .status s :: post) Code.success count op = .ok 0 ∧
    awaitResponses (fs.map (fun l => .msg (.ok l))) Code.success N op = .ok () ∧
    awaitResponses frames Code.success 0 operation = .ok () := by
  refine ⟨?_, rfl, ?_, ?_, ?_⟩
  · simp only [makeSubscribeRequest, subscribe_fold, List.map_cons, List.length_cons]
    simp [Nat.add_comm]
  · subst hcount
    exact checkResponses_countdown Code.success pre hpre s hs post op
  · exact awaitResponses_all Code.success fs N op hfs hN
  · simp [awaitResponses]

/-- Witness for C8 on the repository's own test data: subscriptions
T.MSFT and Q.*, a frame carrying a stray trade plus the first success
followed by the second success and a discarded quote, two further
all-success frames, and a zero counter that reads no frame. -/
theorem subscribe_phase_witness :
    makeSubscribeRequest
        [Subscription.trades (Stock.symbol "MSFT"), Subscription.quotes Stock.all] =
      .ok (⟨Action.subscribe, "T.MSFT,Q.*"⟩, 2) ∧
    renderRequest ⟨Action.subscribe, "T.MSFT,Q.*"⟩ =
      "\x7b\"action\":\"subscribe\",\"params\":\"T.MSFT,Q.*\"\x7d" ∧
    checkResponses
        ([.trade tradeA, .status ⟨Code.success, "subscribed to: T.MSFT"⟩] ++
          .status ⟨Code.success, "subscribed to: Q.*"⟩ :: [.quote quoteA])
        Code.success 2 "subscription" = .ok 0 ∧
    awaitResponses
        ([[Message.status ⟨Code.success, "sub one"⟩],
          [Message.status ⟨Code.success, "sub two"⟩]].map (fun l => .msg (.ok l)))
        Code.success 2 "subscription" = .ok () ∧
    awaitResponses [WsFrame.close] Code.success 0 "subscription" = .ok () := by
  have h := subscribe_phase (Subscription.trades (Stock.symbol "MSFT"))
    [Subscription.quotes Stock.all]
    [Message.trade tradeA, Message.status ⟨Code.success, "subscribed to: T.MSFT"⟩]
    (by decide) 2 (by decide)
    ⟨Code.success, "subscribed to: Q.*"⟩ rfl [Message.quote quoteA] "subscription"
    [[Message.status ⟨Code.success, "sub one"⟩], [Message.status ⟨Code.success, "sub two"⟩]]
    (by decide) 2 (by decide) [WsFrame.close] "subscription"
  obtain ⟨h1, h2, h3, h4, h5⟩ := h
  have hj : joinTokens
      (([Subscription.trades (Stock.symbol "MSFT"),
         Subscription.quotes Stock.all]).map Subscription.render) = "T.MSFT,Q.*" := by decide
  rw [hj] at h1 h2
  exact ⟨h1.trans (by decide), h2.trans (by decide), h3, h4, h5⟩

/-- C9: for the empty subscription collection, `make_subscribe_request`
fails with the protocol error "failed to subscribe to event stream: no
subscriptions supplied" before any frame is sent, so `subscribe_stocks`
(and with it the handshake) returns that error and sends nothing. -/
theorem empty_subscriptions_error :
    makeSubscribeRequest [] =
      .error (.protocolViolation
        "failed to subscribe to event stream: no subscriptions supplied") ∧
    subscribeStocks [] =
      .error (.protocolViolation
        "failed to subscribe to event stream: no subscriptions supplied") :=
  ⟨rfl, rfl⟩

end Polyio
